import Mathlib

/-!
Verification development for the AI-Guide repository.

JavaScript strings are embedded as lists of characters (abbreviation Str).
The text normalizers of lib/normalizers.ts, the wpFetch client of
lib/wpclient.ts, the branding helpers of lib/branding.ts and the cache
revalidation handlers of app/api/revalidate/route.js are translated into
executable Lean definitions, and the behavioural claims about them are
proved below the definitions.
-/

set_option maxRecDepth 20000

namespace AIGuide

/-- JavaScript strings, embedded as lists of UTF code points. -/
abbrev Str := List Char

/-- Whitespace as recognized by the JavaScript trim method and the
regular-expression class backslash-s: ASCII whitespace, no-break space,
the Unicode space separators, line/paragraph separators and the BOM. -/
def jsIsWS (c : Char) : Bool :=
  c == ' ' || c == '\t' || c == '\n' || c == '\r' || c == '\u000b' || c == '\u000c' ||
  c == '\u00a0' || c == '\u1680' || ('\u2000' ≤ c && c ≤ '\u200a') ||
  c == '\u2028' || c == '\u2029' || c == '\u202f' || c == '\u205f' ||
  c == '\u3000' || c == '\ufeff'

/-- Drop leading whitespace. -/
def trimLeft : Str → Str
  | [] => []
  | a :: as => if jsIsWS a then trimLeft as else a :: as

/-- Drop trailing whitespace. -/
def trimRight (l : Str) : Str := (trimLeft l.reverse).reverse

/-- JavaScript String.prototype.trim. -/
def jsTrim (l : Str) : Str := trimRight (trimLeft l)

/-- Split on the regular expression CR?LF, as used by
text.split in lib/normalizers.ts: a line feed ends a segment and consumes
one carriage return immediately before it; a lone carriage return stays. -/
def splitLines : Str → List Str
  | [] => [[]]
  | '\r' :: '\n' :: rest => [] :: splitLines rest
  | '\n' :: rest => [] :: splitLines rest
  | a :: rest =>
    match splitLines rest with
    | [] => [[a]]
    | h :: t => (a :: h) :: t

/-- The idiom text.split CR?LF, map trim, filter nonempty, shared verbatim by
normalizeKeyFindings, parseSinglePricingModel and parseWhoIsItFor. -/
def trimmedLines (s : Str) : List Str :=
  ((splitLines s).map jsTrim).filter (fun l => !l.isEmpty)

/-- JavaScript String.prototype.split with a one-character separator. -/
def splitOnChar (c : Char) : Str → List Str
  | [] => [[]]
  | a :: as =>
    match splitOnChar c as with
    | [] => [[a]]
    | h :: t => if a == c then [] :: h :: t else (a :: h) :: t

/-- The first element of a split result (index 0 access in JavaScript);
split never returns an empty array, so the default is unreachable. -/
def headOrEmpty : List Str → Str
  | [] => []
  | a :: _ => a

/-- JavaScript Array.prototype.join with a separator string. -/
def joinSep (sep : Str) : List Str → Str
  | [] => []
  | [x] => x
  | x :: xs => x ++ sep ++ joinSep sep xs

/-- JavaScript String.prototype.startsWith. -/
def startsWithStr : Str → Str → Bool
  | _, [] => true
  | [], _ :: _ => false
  | a :: as, b :: bs => a == b && startsWithStr as bs

/-- JavaScript String.prototype.includes (substring search). -/
def includesStr : Str → Str → Bool
  | hay, needle =>
    if startsWithStr hay needle then true
    else
      match hay with
      | [] => false
      | _ :: rest => includesStr rest needle

/-- JavaScript String.prototype.toLowerCase (code-point wise). -/
def lowerStr (s : Str) : Str := s.map Char.toLower

/-- JavaScript truthiness of an optional string: present and non-empty. -/
def truthy : Option Str → Bool
  | some s => !s.isEmpty
  | none => false

/-- JavaScript a or-else b on optional strings: a when truthy, otherwise b. -/
def jsOr (a b : Option Str) : Option Str :=
  if truthy a then a else b

/-- Replace of the anchored pattern dash backslash-s-star by the empty string:
remove one leading dash together with the whitespace right after it. -/
def stripDash : Str → Str
  | '-' :: rest => rest.dropWhile jsIsWS
  | l => l

/-- First match of the regular expression dollar-digits: the first dollar sign
followed by at least one decimal digit, with the maximal digit run. -/
def priceMatch : Str → Option Str
  | [] => none
  | '$' :: rest =>
    if (rest.takeWhile Char.isDigit).isEmpty then priceMatch rest
    else some ('$' :: rest.takeWhile Char.isDigit)
  | _ :: rest => priceMatch rest

/-- JavaScript string comparison with the less-than operator: lexicographic
on code units, a strict prefix comparing smaller. -/
def ltStr : Str → Str → Bool
  | [], [] => false
  | [], _ :: _ => true
  | _ :: _, [] => false
  | a :: as, b :: bs =>
    if a.toNat < b.toNat then true
    else if b.toNat < a.toNat then false
    else ltStr as bs

/-! ### Data model of lib/normalizers.ts -/

/-- A bullet point of a target audience item; the description field is only
present when the parsed description is non-empty. -/
structure BulletPoint where
  title : Str
  description : Option Str := none
deriving DecidableEq, Repr

/-- TargetAudienceItem of lib/normalizers.ts.  The optional logo field of the
TypeScript interface is never set by parseWhoIsItFor and is omitted. -/
structure TargetAudienceItem where
  title : Str
  bulletPoints : List BulletPoint
deriving DecidableEq, Repr

/-- One pricing model record, as returned by parsePricingModels. -/
structure PricingModel where
  name : Str
  price : Str
  features : List Str
deriving DecidableEq, Repr

/-- The CMS meta object consumed by the normalizers.  Absent or null fields
are none; the code reads both the all-lowercase and the camel-case spelling
of the job type fields. -/
structure ToolMeta where
  keyFindingsRaw : Option Str := none
  pricingModel1 : Option Str := none
  pricingModel2 : Option Str := none
  pricingModel3 : Option Str := none
  pricingModel4 : Option Str := none
  jobtype1 : Option Str := none
  jobtype2 : Option Str := none
  jobtype3 : Option Str := none
  jobType1 : Option Str := none
  jobType2 : Option Str := none
  jobType3 : Option Str := none
  situation1 : Option Str := none
  situation2 : Option Str := none
  situation3 : Option Str := none
deriving DecidableEq, Repr

/-! ### normalizeKeyFindings -/

/-- Body of the forEach loop of normalizeKeyFindings: a line with an at sign
contributes the trimmed part before the first at sign when non-empty; a line
without one is added verbatim unless already present. -/
def kfStep (titles : List Str) (line : Str) : List Str :=
  if line.contains '@' then
    let parts := splitOnChar '@' line
    let title := jsTrim (headOrEmpty parts)
    if !title.isEmpty then titles ++ [title] else titles
  else
    if !line.isEmpty && !(titles.contains line) then titles ++ [line] else titles

/-- normalizeKeyFindings of lib/normalizers.ts.  The input is the
keyFindingsRaw field of the node (absent field defaulting to the empty
string); the result is capped at 5 titles. -/
def normalizeKeyFindings (rawField : Option Str) : List Str :=
  let raw := rawField.getD []
  if raw.isEmpty || (jsTrim raw).isEmpty then []
  else ((trimmedLines raw).foldl kfStep []).take 5

/-! ### parsePricingModels -/

/-- parseSinglePricingModel, the inner helper of parsePricingModels. -/
def parseSinglePricingModel (text : Option Str) : List PricingModel :=
  match text with
  | none => []
  | some t =>
    if t.isEmpty || (jsTrim t).isEmpty then []
    else
      match trimmedLines t with
      | [] => []
      | firstLine :: _ =>
        let lines := trimmedLines t
        let hasAt := firstLine.contains '@'
        let name :=
          if hasAt then jsTrim (headOrEmpty (splitOnChar '@' firstLine))
          else firstLine
        let price :=
          if hasAt then
            match (splitOnChar '@' firstLine).tail.head? with
            | some p => if (jsTrim p).isEmpty then "$0.00".data else jsTrim p
            | none => "$0.00".data
          else
            match lines.tail.head? with
            | some l1 => if startsWithStr l1 "$".data then l1 else "$0.00".data
            | none => "$0.00".data
        let startIdx := if hasAt then 1 else 2
        let features :=
          ((lines.drop startIdx).map (fun l => jsTrim (stripDash l))).filter
            (fun f => !f.isEmpty)
        if name.isEmpty then [] else [⟨name, price, features⟩]

/-- parsePricingModels of lib/normalizers.ts: the four pricingModel fields
are parsed independently (each only when truthy) and concatenated. -/
def parsePricingModels (meta : ToolMeta) : List PricingModel :=
  (if truthy meta.pricingModel1 then parseSinglePricingModel meta.pricingModel1 else []) ++
  (if truthy meta.pricingModel2 then parseSinglePricingModel meta.pricingModel2 else []) ++
  (if truthy meta.pricingModel3 then parseSinglePricingModel meta.pricingModel3 else []) ++
  (if truthy meta.pricingModel4 then parseSinglePricingModel meta.pricingModel4 else [])

/-! ### getPricingDisplay -/

/-- Accumulator of the forEach loop of getPricingDisplay. -/
structure PricingState where
  hasFree : Bool
  hasPaid : Bool
  lowestPaidPrice : Str
deriving DecidableEq, Repr

/-- A model counts as free when its name or price mentions free or its price
is exactly zero dollars. -/
def isFreeModel (m : PricingModel) : Bool :=
  includesStr (lowerStr m.name) "free".data || m.price == "$0".data ||
  m.price == "$0.00".data || includesStr (lowerStr m.price) "free".data

/-- A model counts as paid when it is not free, its price is truthy, starts
with a dollar sign and is not exactly zero dollars. -/
def isPaidModel (m : PricingModel) : Bool :=
  !isFreeModel m && !m.price.isEmpty && startsWithStr m.price "$".data &&
  !(m.price == "$0".data) && !(m.price == "$0.00".data)

/-- Body of the forEach loop of getPricingDisplay: free models set hasFree;
paid models set hasPaid and lower the running lowest price when their
dollar-digits match compares smaller as a string. -/
def pricingStep (st : PricingState) (m : PricingModel) : PricingState :=
  if isFreeModel m then { st with hasFree := true }
  else if isPaidModel m then
    { st with
      hasPaid := true
      lowestPaidPrice :=
        match priceMatch m.price with
        | some pm =>
          if st.lowestPaidPrice.isEmpty || ltStr pm st.lowestPaidPrice then pm
          else st.lowestPaidPrice
        | none => st.lowestPaidPrice }
  else st

/-- The state after the forEach loop of getPricingDisplay. -/
def pricingScan (models : List PricingModel) : PricingState :=
  models.foldl pricingStep ⟨false, false, []⟩

/-- getPricingDisplay of lib/normalizers.ts. -/
def getPricingDisplay (meta : ToolMeta) : Str :=
  let pricingModels := parsePricingModels meta
  if pricingModels.isEmpty then []
  else
    let st := pricingScan pricingModels
    let pricingInfo :=
      (if st.hasFree then ["Free".data] else []) ++
      (if st.hasPaid && !st.lowestPaidPrice.isEmpty then
        ["Paid".data ++ st.lowestPaidPrice ++ "-".data] else [])
    joinSep " / ".data pricingInfo

/-! ### parseWhoIsItFor -/

/-- Body of the forEach loop over situation lines in parseWhoIsItFor. -/
def bulletStep (acc : List BulletPoint) (line : Str) : List BulletPoint :=
  if line.contains '@' then
    let parts := splitOnChar '@' line
    let title := jsTrim (headOrEmpty parts)
    let description := jsTrim (joinSep "@".data parts.tail)
    if !title.isEmpty then
      acc ++ [⟨title, if description.isEmpty then none else some description⟩]
    else acc
  else
    if !line.isEmpty then acc ++ [⟨line, none⟩] else acc

/-- One iteration of the loop of parseWhoIsItFor, for the job type fields
(lowercase spelling first, camel case as fallback) and situation field of one
index. -/
def whoPair (jt jtCamel sit : Option Str) : Option TargetAudienceItem :=
  let jobType := jsOr jt jtCamel
  if !truthy jobType || !truthy sit then none
  else
    let jobTypeStr := jsTrim (jobType.getD [])
    let situationStr := jsTrim (sit.getD [])
    if jobTypeStr.isEmpty || situationStr.isEmpty then none
    else
      let bulletPoints := (trimmedLines situationStr).foldl bulletStep []
      if !jobTypeStr.isEmpty && bulletPoints.length > 0 then
        some ⟨jobTypeStr, bulletPoints⟩
      else none

/-- parseWhoIsItFor of lib/normalizers.ts: the three job type and situation
pairs are processed in order and the produced items collected. -/
def parseWhoIsItFor (meta : ToolMeta) : List TargetAudienceItem :=
  (whoPair meta.jobtype1 meta.jobType1 meta.situation1).toList ++
  (whoPair meta.jobtype2 meta.jobType2 meta.situation2).toList ++
  (whoPair meta.jobtype3 meta.jobType3 meta.situation3).toList

/-- getWhoIsItForDisplay of lib/normalizers.ts: the first item title. -/
def getWhoIsItForDisplay (meta : ToolMeta) : Str :=
  match parseWhoIsItFor meta with
  | a :: _ => a.title
  | [] => []

/-! ### Lemmas about trimming and line splitting -/

theorem length_trimLeft_le (l : Str) : (trimLeft l).length ≤ l.length := by
  induction l with
  | nil => simp [trimLeft]
  | cons a as ih =>
    rw [trimLeft]
    split
    · exact Nat.le_trans ih (Nat.le_succ _)
    · exact Nat.le_refl _

theorem trimLeft_exists_append (l : Str) : ∃ v, l = v ++ trimLeft l := by
  induction l with
  | nil => exact ⟨[], rfl⟩
  | cons a as ih =>
    rw [trimLeft]
    split
    · obtain ⟨v, hv⟩ := ih
      exact ⟨a :: v, by rw [List.cons_append, ← hv]⟩
    · exact ⟨[], rfl⟩

theorem trimRight_exists_append (l : Str) : ∃ u, l = trimRight l ++ u := by
  obtain ⟨v, hv⟩ := trimLeft_exists_append l.reverse
  refine ⟨v.reverse, ?_⟩
  have := congrArg List.reverse hv
  rw [List.reverse_reverse, List.reverse_append] at this
  rw [trimRight, ← this]

theorem trimLeft_idem (l : Str) : trimLeft (trimLeft l) = trimLeft l := by
  induction l with
  | nil => rfl
  | cons a as ih =>
    rw [trimLeft]
    split
    · exact ih
    · rw [trimLeft]
      simp [*]

theorem trimRight_idem (l : Str) : trimRight (trimRight l) = trimRight l := by
  rw [trimRight, trimRight, List.reverse_reverse, trimLeft_idem]

theorem trimLeft_head_not_ws {l : Str} (h : trimLeft l = l) :
    l = [] ∨ ∃ a as, l = a :: as ∧ jsIsWS a = false := by
  cases l with
  | nil => exact Or.inl rfl
  | cons a as =>
    refine Or.inr ⟨a, as, rfl, ?_⟩
    by_contra hw
    have hw' : jsIsWS a = true := by
      cases hws : jsIsWS a
      · exact absurd hws hw
      · rfl
    rw [trimLeft, if_pos hw'] at h
    have hle := length_trimLeft_le as
    rw [h] at hle
    simp at hle

theorem trimLeft_trimRight_of_fix {w : Str} (h : trimLeft w = w) :
    trimLeft (trimRight w) = trimRight w := by
  cases hw : trimRight w with
  | nil => rfl
  | cons b bs =>
    obtain ⟨u, hu⟩ := trimRight_exists_append w
    rw [hw] at hu
    rcases trimLeft_head_not_ws h with h0 | ⟨a, as, ha, hws⟩
    · rw [h0] at hu
      exact absurd hu.symm (by simp)
    · rw [ha] at hu
      have hab : a = b := by
        have := hu
        rw [List.cons_append] at this
        exact (List.cons.injEq _ _ _ _ ▸ this).1
      have hwb : jsIsWS b = false := hab ▸ hws
      rw [trimLeft, hwb]
      simp

theorem jsTrim_idem (l : Str) : jsTrim (jsTrim l) = jsTrim l := by
  rw [jsTrim, jsTrim, trimLeft_trimRight_of_fix (trimLeft_idem l), trimRight_idem]

theorem trimLeft_eq_nil_iff {l : Str} : trimLeft l = [] ↔ ∀ c ∈ l, jsIsWS c = true := by
  induction l with
  | nil => simp [trimLeft]
  | cons a as ih =>
    rw [trimLeft]
    constructor
    · intro h
      split at h
      · intro c hc
        rcases List.mem_cons.mp hc with rfl | hc
        · assumption
        · exact ih.mp h c hc
      · exact absurd h (by simp)
    · intro h
      rw [if_pos (h a (List.mem_cons_self _ _))]
      exact ih.mpr fun c hc => h c (List.mem_cons_of_mem _ hc)

theorem forall_ws_trimLeft_iff {l : Str} :
    (∀ c ∈ trimLeft l, jsIsWS c = true) ↔ (∀ c ∈ l, jsIsWS c = true) := by
  induction l with
  | nil => rfl
  | cons a as ih =>
    rw [trimLeft]
    split
    · rename_i hws
      rw [ih]
      constructor
      · intro h c hc
        rcases List.mem_cons.mp hc with rfl | hc
        · exact hws
        · exact h c hc
      · intro h c hc
        exact h c (List.mem_cons_of_mem _ hc)
    · exact Iff.rfl

theorem jsTrim_eq_nil_iff {l : Str} : jsTrim l = [] ↔ ∀ c ∈ l, jsIsWS c = true := by
  rw [jsTrim, trimRight]
  rw [show ((trimLeft (trimLeft l).reverse).reverse = [] ↔
      trimLeft (trimLeft l).reverse = []) by simp]
  rw [trimLeft_eq_nil_iff]
  rw [show ((∀ c ∈ (trimLeft l).reverse, jsIsWS c = true) ↔
      ∀ c ∈ trimLeft l, jsIsWS c = true) by simp]
  exact forall_ws_trimLeft_iff

theorem splitLines_cons_eq (a : Char) (rest : Str)
    (h1 : ∀ r', a = '\r' → rest = '\n' :: r' → False) (h2 : a = '\n' → False) :
    splitLines (a :: rest) =
      match splitLines rest with
      | [] => [[a]]
      | h :: t => (a :: h) :: t := by
  rw [splitLines.eq_def]
  split
  · rename_i heq
    exact absurd heq (by simp)
  · rename_i r' heq
    rw [List.cons.injEq] at heq
    exact absurd heq.2 (h1 r' heq.1)
  · rename_i heq
    rw [List.cons.injEq] at heq
    exact absurd heq.1 h2
  · rename_i a' rest' hn1 hn2 heq
    rw [List.cons.injEq] at heq
    rw [heq.1, heq.2]

/-- Every character of a segment produced by splitLines occurs in the
original string. -/
theorem mem_splitLines_mem : ∀ (s : Str), ∀ l ∈ splitLines s, ∀ c ∈ l, c ∈ s := by
  intro s
  induction s using splitLines.induct with
  | case1 =>
    intro l hl c hc
    simp [splitLines] at hl
    rw [hl] at hc
    simp at hc
  | case2 rest ih =>
    intro l hl c hc
    rw [splitLines] at hl
    rcases List.mem_cons.mp hl with rfl | hl
    · simp at hc
    · have := ih l hl c hc
      simp [this]
  | case3 rest ih =>
    intro l hl c hc
    rw [splitLines] at hl
    rcases List.mem_cons.mp hl with rfl | hl
    · simp at hc
    · have := ih l hl c hc
      simp [this]
  | case4 a rest h1 h2 hnil ih =>
    intro l hl c hc
    rw [splitLines_cons_eq a rest h1 h2, hnil] at hl
    rcases List.mem_cons.mp hl with rfl | hl
    · rcases List.mem_cons.mp hc with rfl | hc
      · exact List.mem_cons_self _ _
      · simp at hc
    · simp at hl
  | case5 a rest h1 h2 h t hcons ih =>
    intro l hl c hc
    rw [splitLines_cons_eq a rest h1 h2, hcons] at hl
    rcases List.mem_cons.mp hl with rfl | hl
    · rcases List.mem_cons.mp hc with rfl | hc
      · exact List.mem_cons_self _ _
      · exact List.mem_cons_of_mem _ (ih h (hcons ▸ List.mem_cons_self _ _) c hc)
    · exact List.mem_cons_of_mem _ (ih l (hcons ▸ List.mem_cons_of_mem _ hl) c hc)

/-- Segments of trimmedLines are non-empty results of trimming. -/
theorem mem_trimmedLines {s l : Str} (hl : l ∈ trimmedLines s) :
    l ≠ [] ∧ ∃ y, y ∈ splitLines s ∧ l = jsTrim y := by
  rw [trimmedLines] at hl
  rw [List.mem_filter] at hl
  obtain ⟨hmem, hne⟩ := hl
  rw [List.mem_map] at hmem
  obtain ⟨y, hy, rfl⟩ := hmem
  refine ⟨?_, y, hy, rfl⟩
  intro h0
  rw [h0] at hne
  simp at hne

/-- A string that trims to nothing has no trimmed lines. -/
theorem trimmedLines_eq_nil_of_trim {s : Str} (h : jsTrim s = []) :
    trimmedLines s = [] := by
  rw [trimmedLines, List.filter_eq_nil_iff]
  intro l hl
  rw [List.mem_map] at hl
  obtain ⟨y, hy, rfl⟩ := hl
  have hws : ∀ c ∈ s, jsIsWS c = true := jsTrim_eq_nil_iff.mp h
  have hys : ∀ c ∈ y, jsIsWS c = true := fun c hc =>
    hws c (mem_splitLines_mem s y hy c hc)
  have : jsTrim y = [] := jsTrim_eq_nil_iff.mpr hys
  simp [this]

/-! ### Claim C1 -/

/-- whoPair on a truthy lowercase job type and a truthy situation whose
parsed bullet list is non-empty yields the item whose title is the trimmed
job type and whose bullets come from the situation lines. -/
theorem whoPair_eq_some (j s : Str) (h1 : j.isEmpty = false)
    (h2 : (jsTrim j).isEmpty = false) (h3 : s.isEmpty = false)
    (h4 : (jsTrim s).isEmpty = false)
    (h5 : ((trimmedLines (jsTrim s)).foldl bulletStep []).length > 0) :
    whoPair (some j) none (some s) =
      some ⟨jsTrim j, (trimmedLines (jsTrim s)).foldl bulletStep []⟩ := by
  have ht : truthy (some j) = true := by simp [truthy, h1]
  have hts : truthy (some s) = true := by simp [truthy, h3]
  simp [whoPair, jsOr, ht, hts, h2, h4, h5]

/-- The single situation line of claim C1. -/
def sitStudents : Str := "Students@Use it for homework".data

/-- A meta record with job type Students and the situation line of claim C1. -/
def c1Meta : ToolMeta :=
  { jobtype1 := some "Students".data, situation1 := some sitStudents }

/-- C1, counterexample: even with the job-type field set to Students, the
parser does not yield the item claimed by the specification (title Students
with the single bullet titled with the situation description): the bullet
title is the part before the at sign and the description is carried
separately. -/
theorem c1_counterexample :
    parseWhoIsItFor c1Meta ≠
      [⟨"Students".data, [⟨"Use it for homework".data, none⟩]⟩] := by
  decide

/-- C1, amended: for a meta record whose job-type field is a non-empty
string with non-empty trim and whose situation field is the single line
Students at-sign Use it for homework, parseWhoIsItFor yields exactly one
item whose title is the trimmed job type and whose single bullet point has
title Students and description Use it for homework. -/
theorem c1_item (j : Str) (h1 : j.isEmpty = false)
    (h2 : (jsTrim j).isEmpty = false) :
    parseWhoIsItFor { jobtype1 := some j, situation1 := some sitStudents } =
      [⟨jsTrim j, [⟨"Students".data, some "Use it for homework".data⟩]⟩] := by
  have hp := whoPair_eq_some j sitStudents h1 h2 (by decide) (by decide) (by decide)
  have hb : (trimmedLines (jsTrim sitStudents)).foldl bulletStep [] =
      [⟨"Students".data, some "Use it for homework".data⟩] := by decide
  rw [hb] at hp
  simp [parseWhoIsItFor, hp]
  rfl

/-- Witness for C1 at the concrete job type Students. -/
theorem c1_item_witness :
    parseWhoIsItFor { jobtype1 := some "Students".data, situation1 := some sitStudents } =
      [⟨jsTrim "Students".data,
        [⟨"Students".data, some "Use it for homework".data⟩]⟩] :=
  c1_item "Students".data (by decide) (by decide)

/-! ### Claim C2 -/

/-- A malformed line in the sense of claim C2: it contains the at-sign
delimiter but the part before it trims to nothing. -/
def badLine (l : Str) : Prop :=
  l.contains '@' = true ∧ jsTrim (headOrEmpty (splitOnChar '@' l)) = []

instance (l : Str) : Decidable (badLine l) := by
  unfold badLine; infer_instance

/-- A degenerate input text: empty or whitespace-only (it trims to nothing)
or malformed (every line has an empty title before the at sign). -/
def degenerateText (s : Str) : Prop :=
  jsTrim s = [] ∨ ∀ l ∈ trimmedLines s, badLine l

instance (s : Str) : Decidable (degenerateText s) := by
  unfold degenerateText; infer_instance

/-- A degenerate optional field: absent, or its text is degenerate. -/
def degenerateField (o : Option Str) : Prop :=
  match o with
  | none => True
  | some s => degenerateText s

instance (o : Option Str) : Decidable (degenerateField o) := by
  unfold degenerateField; cases o <;> infer_instance

/-- A degenerate situation field: absent, or every line of the trimmed
field text (which is what parseWhoIsItFor splits) has an empty title
before the at sign; a field that trims to nothing has no lines and is
degenerate as well. -/
def degenerateSituation (o : Option Str) : Prop :=
  match o with
  | none => True
  | some s => ∀ l ∈ trimmedLines (jsTrim s), badLine l

instance (o : Option Str) : Decidable (degenerateSituation o) := by
  unfold degenerateSituation; cases o <;> infer_instance

theorem kfFold_of_bad {lines : List Str} (h : ∀ l ∈ lines, badLine l) :
    ∀ acc, lines.foldl kfStep acc = acc := by
  induction lines with
  | nil => intro acc; rfl
  | cons l ls ih =>
    intro acc
    have hb := h l (List.mem_cons_self _ _)
    have hm : '@' ∈ l := by simpa using hb.1
    have hstep : kfStep acc l = acc := by
      simp [kfStep, hm, hb.2]
    rw [List.foldl_cons, hstep]
    exact ih (fun x hx => h x (List.mem_cons_of_mem _ hx)) acc

theorem bulletFold_of_bad {lines : List Str} (h : ∀ l ∈ lines, badLine l) :
    ∀ acc, lines.foldl bulletStep acc = acc := by
  induction lines with
  | nil => intro acc; rfl
  | cons l ls ih =>
    intro acc
    have hb := h l (List.mem_cons_self _ _)
    have hm : '@' ∈ l := by simpa using hb.1
    have hstep : bulletStep acc l = acc := by
      simp [bulletStep, hm, hb.2]
    rw [List.foldl_cons, hstep]
    exact ih (fun x hx => h x (List.mem_cons_of_mem _ hx)) acc

theorem normalizeKeyFindings_degenerate {raw : Str} (h : degenerateText raw) :
    normalizeKeyFindings (some raw) = [] := by
  rcases h with h | h
  · simp [normalizeKeyFindings, h]
  · have hunf : normalizeKeyFindings (some raw) =
        if raw.isEmpty || (jsTrim raw).isEmpty then []
        else ((trimmedLines raw).foldl kfStep []).take 5 := rfl
    rw [hunf]
    by_cases hc : (raw.isEmpty || (jsTrim raw).isEmpty) = true
    · simp [hc]
    · rw [if_neg (by simpa using hc), kfFold_of_bad h]
      rfl

theorem parseSingle_degenerate {s : Str} (h : degenerateText s) :
    parseSinglePricingModel (some s) = [] := by
  rcases h with h | h
  · simp [parseSinglePricingModel, h]
  · cases hl : trimmedLines s with
    | nil => simp [parseSinglePricingModel, hl]
    | cons firstLine rest =>
      have hfl := h firstLine (hl ▸ List.mem_cons_self _ _)
      have hm : '@' ∈ firstLine := by simpa using hfl.1
      simp [parseSinglePricingModel, hl, hm, hfl.2]

theorem whoPair_degenerate (jt jtc : Option Str) {sit : Option Str}
    (h : degenerateSituation sit) : whoPair jt jtc sit = none := by
  cases sit with
  | none => simp [whoPair, truthy]
  | some s =>
    have hfold : (trimmedLines (jsTrim s)).foldl bulletStep [] = [] :=
      bulletFold_of_bad h []
    simp [whoPair, hfold]

/-- C2: on degenerate input (empty, whitespace-only, or malformed in that
every line has an empty title before the at-sign delimiter),
normalizeKeyFindings, parsePricingModels and parseWhoIsItFor all return the
empty list. -/
theorem c2_degenerate (raw : Str) (mp mw : ToolMeta)
    (h1 : degenerateText raw)
    (h2 : degenerateField mp.pricingModel1 ∧ degenerateField mp.pricingModel2 ∧
      degenerateField mp.pricingModel3 ∧ degenerateField mp.pricingModel4)
    (h3 : degenerateSituation mw.situation1 ∧ degenerateSituation mw.situation2 ∧
      degenerateSituation mw.situation3) :
    normalizeKeyFindings (some raw) = [] ∧ parsePricingModels mp = [] ∧
      parseWhoIsItFor mw = [] := by
  refine ⟨normalizeKeyFindings_degenerate h1, ?_, ?_⟩
  · have e : ∀ (o : Option Str), degenerateField o →
        (if truthy o then parseSinglePricingModel o else []) = [] := by
      intro o ho
      cases o with
      | none => simp [truthy]
      | some s =>
        by_cases ht : truthy (some s) = true
        · rw [if_pos ht]
          exact parseSingle_degenerate ho
        · rw [if_neg ht]
    rw [parsePricingModels, e _ h2.1, e _ h2.2.1, e _ h2.2.2.1, e _ h2.2.2.2]
    rfl
  · rw [parseWhoIsItFor, whoPair_degenerate _ _ h3.1,
      whoPair_degenerate _ _ h3.2.1, whoPair_degenerate _ _ h3.2.2]
    rfl

/-- Witness for C2: a malformed raw text, a meta with one whitespace-only
and one malformed pricing field, and a meta with a malformed situation. -/
theorem c2_degenerate_witness :
    normalizeKeyFindings (some "@note".data) = [] ∧
    parsePricingModels
      { pricingModel1 := some " ".data, pricingModel2 := some "@9".data } = [] ∧
    parseWhoIsItFor
      { jobtype1 := some "Dev".data, situation1 := some "@x\n@y".data } = [] :=
  c2_degenerate _ _ _ (by decide) (by decide) (by decide)

/-! ### Claim C3 -/

/-- C3: a non-empty trimmed line without an at sign is handled by the legacy
fallback as a whole title: the key-findings step appends the line itself
(when not yet present), the who-is-it-for step appends the bullet point
with that title and no description, and parseSinglePricingModel uses the
first line of the field as the model name. -/
theorem c3_legacy (titles : List Str) (line : Str) (acc : List BulletPoint)
    (t l0 : Str) (rest : List Str)
    (hA : line.contains '@' = false) (hNE : line ≠ [])
    (hdup : titles.contains line = false)
    (hT : trimmedLines t = l0 :: rest) (hA0 : l0.contains '@' = false) :
    kfStep titles line = titles ++ [line] ∧
    bulletStep acc line = acc ++ [⟨line, none⟩] ∧
    (parseSinglePricingModel (some t)).map PricingModel.name = [l0] := by
  have hm : ¬('@' ∈ line) := by simpa using hA
  have hd : ¬(line ∈ titles) := by simpa using hdup
  have hm0 : ¬('@' ∈ l0) := by simpa using hA0
  have htne : t ≠ [] := by
    intro h0
    rw [h0] at hT
    have he : trimmedLines [] = [] := rfl
    rw [he] at hT
    exact absurd hT (by simp)
  have hjne : jsTrim t ≠ [] := by
    intro h0
    rw [trimmedLines_eq_nil_of_trim h0] at hT
    exact absurd hT (by simp)
  have hl0ne : l0 ≠ [] :=
    (mem_trimmedLines (hT ▸ List.mem_cons_self l0 rest)).1
  refine ⟨?_, ?_, ?_⟩
  · simp [kfStep, hm, hNE, hd]
  · simp [bulletStep, hm, hNE]
  · simp [parseSinglePricingModel, hT, hm0, htne, hjne, hl0ne]

/-- Witness for C3 at concrete legacy lines. -/
theorem c3_legacy_witness :
    kfStep [] "Students".data = [] ++ ["Students".data] ∧
    bulletStep [] "Students".data = [] ++ [⟨"Students".data, none⟩] ∧
    (parseSinglePricingModel (some "Basic".data)).map PricingModel.name =
      ["Basic".data] :=
  c3_legacy [] "Students".data [] "Basic".data "Basic".data []
    (by decide) (by decide) (by decide) (by decide) (by decide)

/-! ### Claim C4 -/

theorem parseSingle_name_ne {o : Option Str} {r : PricingModel}
    (hr : r ∈ parseSinglePricingModel o) : r.name ≠ [] := by
  cases o with
  | none => simp [parseSinglePricingModel] at hr
  | some t =>
    simp only [parseSinglePricingModel] at hr
    split at hr
    · simp at hr
    · split at hr
      · simp at hr
      · split at hr <;>
          (simp at hr; rw [hr.2]; simpa using hr.1)

theorem whoPair_some_inv {jt jtc sit : Option Str} {it : TargetAudienceItem}
    (h : whoPair jt jtc sit = some it) : it.title ≠ [] ∧ it.bulletPoints ≠ [] := by
  simp only [whoPair] at h
  split at h
  · exact Option.noConfusion h
  · split at h
    · exact Option.noConfusion h
    · split at h
      · rename_i hcond
        rw [Bool.and_eq_true] at hcond
        have hlen := of_decide_eq_true hcond.2
        rw [Option.some.injEq] at h
        subst h
        constructor
        · intro h0
          have h0' : jsTrim ((jsOr jt jtc).getD []) = [] := h0
          have h1 := hcond.1
          rw [h0'] at h1
          simp at h1
        · intro h0
          have h0' :
              List.foldl bulletStep [] (trimmedLines (jsTrim (sit.getD []))) = [] := h0
          rw [h0'] at hlen
          simp at hlen
      · exact Option.noConfusion h

/-- C4: for every input meta, every record returned by parsePricingModels
has a non-empty name, and independently every item returned by
parseWhoIsItFor has a non-empty title and a non-empty bullet-point list. -/
theorem c4_invariants (meta : ToolMeta) :
    (∀ r ∈ parsePricingModels meta, r.name ≠ []) ∧
    (∀ it ∈ parseWhoIsItFor meta, it.title ≠ [] ∧ it.bulletPoints ≠ []) := by
  constructor
  · intro r hr
    rw [parsePricingModels] at hr
    have e : ∀ (o : Option Str),
        r ∈ (if truthy o then parseSinglePricingModel o else []) → r.name ≠ [] := by
      intro o ho
      split at ho
      · exact parseSingle_name_ne ho
      · simp at ho
    rcases List.mem_append.mp hr with hr | hr
    rcases List.mem_append.mp hr with hr | hr
    rcases List.mem_append.mp hr with hr | hr
    all_goals first
      | exact e _ hr
  · intro it hit
    rw [parseWhoIsItFor] at hit
    rcases List.mem_append.mp hit with hit | hit
    rcases List.mem_append.mp hit with hit | hit
    all_goals
      rw [Option.mem_toList] at hit
      exact whoPair_some_inv hit

/-- A meta record producing one pricing model and one audience item, used
by the C4 witness. -/
def c4Meta : ToolMeta :=
  { pricingModel1 := some "Pro@$5".data, jobtype1 := some "Dev".data,
    situation1 := some "A@B".data }

/-- Witness for C4: each conjunct applied at a concrete meta with one
record of its kind, discharging the membership hypothesis there. -/
theorem c4_invariants_witness :
    (("Pro".data : Str) ≠ []) ∧
      (("Dev".data : Str) ≠ [] ∧
        ([⟨"A".data, some "B".data⟩] : List BulletPoint) ≠ []) :=
  ⟨(c4_invariants c4Meta).1 ⟨"Pro".data, "$5".data, []⟩ (by decide),
   (c4_invariants c4Meta).2 ⟨"Dev".data, [⟨"A".data, some "B".data⟩]⟩ (by decide)⟩

/-! ### Claim C8 -/

theorem kfStep_preserves {titles : List Str} {l : Str}
    (hP : ∀ t ∈ titles, t ≠ [] ∧ jsTrim t = t)
    (hl : ∃ y, l = jsTrim y) :
    ∀ t ∈ kfStep titles l, t ≠ [] ∧ jsTrim t = t := by
  intro t ht
  simp only [kfStep] at ht
  split at ht
  · split at ht
    · rename_i htitle
      rcases List.mem_append.mp ht with h | h
      · exact hP t h
      · simp at h
        subst h
        exact ⟨by simpa using htitle, jsTrim_idem _⟩
    · exact hP t ht
  · split at ht
    · rename_i hcond
      rcases List.mem_append.mp ht with h | h
      · exact hP t h
      · simp at h
        subst h
        obtain ⟨y, hy⟩ := hl
        rw [Bool.and_eq_true] at hcond
        refine ⟨by simpa using hcond.1, ?_⟩
        rw [hy, jsTrim_idem]
    · exact hP t ht

theorem kfFold_preserves {lines : List Str} :
    ∀ titles, (∀ t ∈ titles, t ≠ [] ∧ jsTrim t = t) →
    (∀ l ∈ lines, ∃ y, l = jsTrim y) →
    ∀ t ∈ lines.foldl kfStep titles, t ≠ [] ∧ jsTrim t = t := by
  induction lines with
  | nil => intro titles hP _; exact hP
  | cons l ls ih =>
    intro titles hP hl
    rw [List.foldl_cons]
    exact ih (kfStep titles l)
      (kfStep_preserves hP (hl l (List.mem_cons_self _ _)))
      (fun x hx => hl x (List.mem_cons_of_mem _ hx))

/-- C8: for every input field, normalizeKeyFindings returns at most 5
titles, and every returned title is a non-empty string that is its own
trim. -/
theorem c8_keyFindings (rawField : Option Str) :
    (normalizeKeyFindings rawField).length ≤ 5 ∧
    ∀ e ∈ normalizeKeyFindings rawField, e ≠ [] ∧ jsTrim e = e := by
  have hunf : normalizeKeyFindings rawField =
      if (rawField.getD []).isEmpty || (jsTrim (rawField.getD [])).isEmpty then []
      else ((trimmedLines (rawField.getD [])).foldl kfStep []).take 5 := rfl
  rw [hunf]
  split
  · simp
  · constructor
    · exact List.length_take_le _ _
    · intro e he
      have he' := List.take_subset _ _ he
      exact kfFold_preserves [] (by simp)
        (fun x hx => ⟨_, ((mem_trimmedLines hx).2.choose_spec.2)⟩) e he'

/-- Witness for C8 at a concrete key-findings field. -/
theorem c8_keyFindings_witness :
    ("Fast".data ∈ normalizeKeyFindings (some "Fast@x".data)) ∧
      (("Fast".data : Str) ≠ [] ∧ jsTrim "Fast".data = "Fast".data) :=
  ⟨by decide, (c8_keyFindings (some "Fast@x".data)).2 "Fast".data (by decide)⟩

/-! ### Claim C9 -/

theorem ltStr_irrefl (a : Str) : ltStr a a = false := by
  induction a with
  | nil => rfl
  | cons c cs ih =>
    rw [ltStr, if_neg (Nat.lt_irrefl _), if_neg (Nat.lt_irrefl _)]
    exact ih

theorem ltStr_trans : ∀ {a b c : Str},
    ltStr a b = true → ltStr b c = true → ltStr a c = true := by
  intro a
  induction a with
  | nil =>
    intro b c hab hbc
    cases b with
    | nil => exact absurd hab (by simp [ltStr])
    | cons y ys =>
      cases c with
      | nil => exact absurd hbc (by simp [ltStr])
      | cons z zs => rfl
  | cons x xs ih =>
    intro b c hab hbc
    cases b with
    | nil => exact absurd hab (by simp [ltStr])
    | cons y ys =>
      cases c with
      | nil => exact absurd hbc (by simp [ltStr])
      | cons z zs =>
        rw [ltStr] at hab hbc ⊢
        by_cases hxy : x.toNat < y.toNat
        · by_cases hyz : y.toNat < z.toNat
          · rw [if_pos (Nat.lt_trans hxy hyz)]
          · by_cases hzy : z.toNat < y.toNat
            · rw [if_neg hyz, if_pos hzy] at hbc
              exact absurd hbc (by simp)
            · have hey : y.toNat = z.toNat :=
                Nat.le_antisymm (Nat.le_of_not_lt hzy) (Nat.le_of_not_lt hyz)
              have hxz : x.toNat < z.toNat := by rw [← hey]; exact hxy
              rw [if_pos hxz]
        · by_cases hyx : y.toNat < x.toNat
          · rw [if_neg hxy, if_pos hyx] at hab
            exact absurd hab (by simp)
          · have hex : x.toNat = y.toNat :=
              Nat.le_antisymm (Nat.le_of_not_lt hyx) (Nat.le_of_not_lt hxy)
            rw [if_neg hxy, if_neg hyx] at hab
            by_cases hyz : y.toNat < z.toNat
            · have hxz : x.toNat < z.toNat := by rw [hex]; exact hyz
              rw [if_pos hxz]
            · by_cases hzy : z.toNat < y.toNat
              · rw [if_neg hyz, if_pos hzy] at hbc
                exact absurd hbc (by simp)
              · rw [if_neg hyz, if_neg hzy] at hbc
                have hez : y.toNat = z.toNat :=
                  Nat.le_antisymm (Nat.le_of_not_lt hzy) (Nat.le_of_not_lt hyz)
                have hnxz : ¬x.toNat < z.toNat := by
                  rw [hex, hez]; exact Nat.lt_irrefl _
                have hnzx : ¬z.toNat < x.toNat := by
                  rw [hex, hez]; exact Nat.lt_irrefl _
                rw [if_neg hnxz, if_neg hnzx]
                exact ih hab hbc

theorem priceMatch_ne_nil : ∀ {s pm : Str}, priceMatch s = some pm → pm ≠ [] := by
  intro s
  induction s using priceMatch.induct with
  | case1 => intro pm h; simp [priceMatch] at h
  | case2 rest hds ih =>
    intro pm h
    have hds' : (List.takeWhile Char.isDigit rest).isEmpty = true := hds
    simp only [priceMatch] at h
    rw [if_pos hds'] at h
    exact ih h
  | case3 rest hds =>
    intro pm h
    have hds' : ¬(List.takeWhile Char.isDigit rest).isEmpty = true := hds
    simp only [priceMatch] at h
    rw [if_neg hds'] at h
    rw [Option.some.injEq] at h
    rw [← h]
    simp
  | case4 head rest hne ih =>
    intro pm h
    have he : priceMatch (head :: rest) = priceMatch rest := by
      rw [priceMatch.eq_def]
      split
      · rename_i heq
        exact absurd heq (by simp)
      · rename_i r heq
        rw [List.cons.injEq] at heq
        exact absurd heq.1 (by intro hh; exact hne hh)
      · rename_i a r hx heq
        rw [List.cons.injEq] at heq
        rw [heq.2]
    rw [he] at h
    exact ih h

/-- The dollar-digits match a model contributes to the lowest-paid-price
computation of getPricingDisplay: present exactly when the model is counted
as paid and its price has such a match. -/
def paidMatchOf (m : PricingModel) : Option Str :=
  if isPaidModel m then priceMatch m.price else none

/-- All dollar-digits matches of the paid models, in model order. -/
def paidMatches (models : List PricingModel) : List Str :=
  models.filterMap paidMatchOf

theorem pricingStep_lowest (st : PricingState) (m : PricingModel) :
    (pricingStep st m).lowestPaidPrice =
      match paidMatchOf m with
      | some pm =>
        if st.lowestPaidPrice.isEmpty || ltStr pm st.lowestPaidPrice then pm
        else st.lowestPaidPrice
      | none => st.lowestPaidPrice := by
  rw [pricingStep, paidMatchOf]
  by_cases hf : isFreeModel m = true
  · have hp : isPaidModel m = false := by simp [isPaidModel, hf]
    simp [hf, hp]
  · by_cases hp : isPaidModel m = true
    · simp only [Bool.not_eq_true] at hf
      simp only [hf, hp, if_false, if_true]
      cases priceMatch m.price <;> simp
    · simp only [Bool.not_eq_true] at hf hp
      simp [hf, hp]

theorem paidMatchOf_ne_nil {m : PricingModel} {pm : Str}
    (h : paidMatchOf m = some pm) : pm ≠ [] := by
  rw [paidMatchOf] at h
  split at h
  · exact priceMatch_ne_nil h
  · exact Option.noConfusion h

/-- Loop invariant of the forEach of getPricingDisplay: the running lowest
paid price is empty with no paid matches seen, or it is one of the matches
seen so far and none of them compares strictly smaller. -/
theorem pricingFold_min :
    ∀ (models : List PricingModel) (st : PricingState) (ms : List Str),
    (∀ x ∈ ms, x ≠ []) →
    ((st.lowestPaidPrice = [] ∧ ms = []) ∨
      (st.lowestPaidPrice ∈ ms ∧ ∀ x ∈ ms, ltStr x st.lowestPaidPrice = false)) →
    (∀ x ∈ ms ++ paidMatches models, x ≠ []) ∧
    (((models.foldl pricingStep st).lowestPaidPrice = [] ∧
        ms ++ paidMatches models = []) ∨
      ((models.foldl pricingStep st).lowestPaidPrice ∈ ms ++ paidMatches models ∧
        ∀ x ∈ ms ++ paidMatches models,
          ltStr x (models.foldl pricingStep st).lowestPaidPrice = false)) := by
  intro models
  induction models with
  | nil =>
    intro st ms hne hinv
    simpa [paidMatches] using ⟨hne, hinv⟩
  | cons m rest ih =>
    intro st ms hne hinv
    rw [List.foldl_cons]
    have hm : paidMatches (m :: rest) = (paidMatchOf m).toList ++ paidMatches rest := by
      cases hpm : paidMatchOf m <;> simp [paidMatches, List.filterMap_cons, hpm]
    cases hpm : paidMatchOf m with
    | none =>
      have hlow : (pricingStep st m).lowestPaidPrice = st.lowestPaidPrice := by
        rw [pricingStep_lowest, hpm]
      have := ih (pricingStep st m) ms hne (by rw [hlow]; exact hinv)
      rw [hm, hpm]
      simpa using this
    | some pm =>
      have hpmne : pm ≠ [] := paidMatchOf_ne_nil hpm
      have hlow : (pricingStep st m).lowestPaidPrice =
          if st.lowestPaidPrice.isEmpty || ltStr pm st.lowestPaidPrice then pm
          else st.lowestPaidPrice := by
        rw [pricingStep_lowest, hpm]
      have hne' : ∀ x ∈ ms ++ [pm], x ≠ [] := by
        intro x hx
        rcases List.mem_append.mp hx with hx | hx
        · exact hne x hx
        · simp at hx; subst hx; exact hpmne
      have hinv' : ((pricingStep st m).lowestPaidPrice = [] ∧ ms ++ [pm] = []) ∨
          ((pricingStep st m).lowestPaidPrice ∈ ms ++ [pm] ∧
            ∀ x ∈ ms ++ [pm], ltStr x (pricingStep st m).lowestPaidPrice = false) := by
        right
        rw [hlow]
        rcases hinv with ⟨hl0, hms0⟩ | ⟨hmem, hall⟩
        · subst hms0
          rw [hl0]
          have hcond : (List.isEmpty ([] : Str) || ltStr pm []) = true := by simp
          rw [if_pos hcond]
          constructor
          · simp
          · intro x hx
            simp at hx
            subst hx
            exact ltStr_irrefl _
        · have hlne : st.lowestPaidPrice ≠ [] := hne _ hmem
          have hlE : st.lowestPaidPrice.isEmpty = false := by
            cases hq : st.lowestPaidPrice with
            | nil => exact absurd hq hlne
            | cons c cs => rfl
          rw [hlE, Bool.false_or]
          by_cases hlt : ltStr pm st.lowestPaidPrice = true
          · rw [if_pos hlt]
            constructor
            · exact List.mem_append.mpr (Or.inr (by simp))
            · intro x hx
              rcases List.mem_append.mp hx with hx | hx
              · by_cases hxlt : ltStr x pm = true
                · exact absurd (ltStr_trans hxlt hlt) (by rw [hall x hx]; simp)
                · simpa using hxlt
              · simp at hx
                subst hx
                exact ltStr_irrefl _
          · have hlt' : ltStr pm st.lowestPaidPrice = false := by
              simpa using hlt
            rw [if_neg (by simp [hlt'])]
            constructor
            · exact List.mem_append.mpr (Or.inl hmem)
            · intro x hx
              rcases List.mem_append.mp hx with hx | hx
              · exact hall x hx
              · simp at hx
                subst hx
                exact hlt'
      have := ih (pricingStep st m) (ms ++ [pm]) hne' hinv'
      rw [hm, hpm]
      simpa [List.append_assoc] using this

/-- The meta of the C9 example: two paid models priced 100 and 20 dollars. -/
def c9Meta : ToolMeta :=
  { pricingModel1 := some "Pro@$100".data, pricingModel2 := some "Basic@$20".data }

/-- C9: the lowest paid price reported by getPricingDisplay is the
dollar-digits match of the paid models that is minimal in the lexicographic
string order (no paid match compares smaller), not in numeric order; in
particular for models priced 100 and 20 dollars the display is Paid$100-. -/
theorem c9_lowest (meta : ToolMeta) (x : Str)
    (hx : x ∈ paidMatches (parsePricingModels meta)) :
    (pricingScan (parsePricingModels meta)).lowestPaidPrice ∈
        paidMatches (parsePricingModels meta) ∧
    ltStr x (pricingScan (parsePricingModels meta)).lowestPaidPrice = false ∧
    getPricingDisplay c9Meta = "Paid$100-".data := by
  rw [pricingScan]
  have h := pricingFold_min (parsePricingModels meta) ⟨false, false, []⟩ []
    (by simp) (Or.inl ⟨rfl, rfl⟩)
  rw [List.nil_append] at h
  rcases h.2 with ⟨h0, hnil⟩ | ⟨hmem, hall⟩
  · rw [hnil] at hx
    simp at hx
  · exact ⟨hmem, hall x hx, by decide⟩

/-- Witness for C9 at the concrete two-model meta. -/
theorem c9_lowest_witness :
    (pricingScan (parsePricingModels c9Meta)).lowestPaidPrice ∈
        paidMatches (parsePricingModels c9Meta) ∧
    ltStr "$20".data (pricingScan (parsePricingModels c9Meta)).lowestPaidPrice = false ∧
    getPricingDisplay c9Meta = "Paid$100-".data :=
  c9_lowest c9Meta "$20".data (by decide)

/-! ### Claim C10 -/

/-- C10: for an old-format pricing field (first line without an at sign)
whose second line does not start with a dollar sign, the price falls back to
zero dollars and the second line is dropped altogether: it is neither the
price nor a feature, and the features are built from the third line on. -/
theorem c10_old_format (t l0 l1 : Str) (rest : List Str)
    (hT : trimmedLines t = l0 :: l1 :: rest) (hA : l0.contains '@' = false)
    (hD : startsWithStr l1 "$".data = false) :
    parseSinglePricingModel (some t) =
      [⟨l0, "$0.00".data,
        (rest.map (fun l => jsTrim (stripDash l))).filter (fun f => !f.isEmpty)⟩] := by
  have hm0 : ¬('@' ∈ l0) := by simpa using hA
  have htne : t ≠ [] := by
    intro h0
    rw [h0] at hT
    have he : trimmedLines [] = [] := rfl
    rw [he] at hT
    exact absurd hT (by simp)
  have hjne : jsTrim t ≠ [] := by
    intro h0
    rw [trimmedLines_eq_nil_of_trim h0] at hT
    exact absurd hT (by simp)
  have hl0ne : l0 ≠ [] :=
    (mem_trimmedLines (hT ▸ List.mem_cons_self l0 (l1 :: rest))).1
  simp [parseSinglePricingModel, hT, hm0, hD, htne, hjne, hl0ne]

/-- Witness for C10 at a concrete old-format field with a non-price second
line. -/
theorem c10_old_format_witness :
    parseSinglePricingModel (some "Basic\nCheap\n- f1".data) =
      [⟨"Basic".data, "$0.00".data,
        (["- f1".data].map (fun l => jsTrim (stripDash l))).filter
          (fun f => !f.isEmpty)⟩] :=
  c10_old_format "Basic\nCheap\n- f1".data "Basic".data "Cheap".data ["- f1".data]
    (by decide) (by decide) (by decide)

/-! ### Claim C5: the revalidation webhook of app/api/revalidate/route.js.
Cache side effects (revalidatePath and revalidateTag calls) are recorded as
an explicit action list; request query parameters and the parsed JSON body
are the handler inputs, with absent values as none. -/

/-- A cache side effect performed by the revalidation handlers. -/
inductive RevalAction where
  | path (p : Str)
  | tag (t : Str)
deriving DecidableEq, Repr

/-- The JSON body of a handler response: the invalid-secret message, or the
revalidated flag with the path and tag lists (the slug and postType echoes
of the POST success body are omitted). -/
inductive RevalBody where
  | invalid (message : Str)
  | done (revalidated : Bool) (paths : List Str) (tags : List Str)
deriving DecidableEq, Repr

/-- HTTP status, response body and performed cache actions of one request. -/
structure HandlerResult where
  status : Nat
  body : RevalBody
  actions : List RevalAction
deriving DecidableEq, Repr

/-- The strict equality check of the handlers: the supplied token (null when
absent) strictly equals the REVALIDATE_SECRET environment value (undefined
when unset) only when both are present and equal strings. -/
def secretMatches : Option Str → Option Str → Bool
  | some t, some e => t == e
  | _, _ => false

/-- The three WordPress data cache tags revalidated by both handlers. -/
def wpCacheTags : List Str :=
  ["wordpress-posts".data, "wordpress-tags".data, "wordpress-categories".data]

/-- The GET handler of app/api/revalidate/route.js. -/
def revalidateGET (env qSecret qPath qAll : Option Str) : HandlerResult :=
  if !(secretMatches qSecret env) then
    ⟨401, .invalid "Invalid secret".data, []⟩
  else if qAll == some "true".data then
    ⟨200, .done true ["/".data, "/articles".data] wpCacheTags,
      [.path "/".data, .path "/articles".data] ++ wpCacheTags.map .tag⟩
  else if truthy qPath then
    ⟨200, .done true [qPath.getD []] [], [.path (qPath.getD [])]⟩
  else
    ⟨200, .done true ["/".data] [], [.path "/".data]⟩

/-- The parsed JSON body of a POST request; a body that fails to parse is
the record with every field absent. -/
structure PostBody where
  secret : Option Str := none
  path : Option Str := none
  slug : Option Str := none
  postType : Option Str := none
  tags : Option (List Str) := none
  categories : Option (List Str) := none
deriving DecidableEq, Repr

/-- The optional-chained categories.includes check of the POST handler. -/
def catIncludes (o : Option (List Str)) (x : Str) : Bool :=
  match o with
  | some cs => cs.contains x
  | none => false

/-- The POST handler of app/api/revalidate/route.js.  The token is the query
secret when truthy, else the body secret. -/
def revalidatePOST (env qSecret : Option Str) (b : PostBody) : HandlerResult :=
  let token := jsOr qSecret b.secret
  if !(secretMatches token env) then
    ⟨401, .invalid "Invalid secret".data, []⟩
  else
    let isAiReview := b.postType == some "ai-review".data ||
      catIncludes b.categories "ai-review".data
    let isBlog := b.postType == some "blog".data ||
      catIncludes b.categories "blog".data
    let slugStr := b.slug.getD []
    let pathPaths := if truthy b.path then [b.path.getD []] else []
    let slugPaths :=
      if truthy b.slug then
        if isAiReview then ["/tool/".data ++ slugStr]
        else if isBlog then ["/blog/".data ++ slugStr]
        else []
      else []
    let tagList := b.tags.getD []
    let collPaths :=
      if b.tags.isSome && tagList.length > 0 then
        tagList.map (fun ts => "/collection/".data ++ ts)
      else []
    let collTags := if b.tags.isSome && tagList.length > 0 then tagList else []
    let artPaths := if isBlog then ["/articles".data] else []
    let slugOr := if truthy b.slug then slugStr else "unknown".data
    let loopTags :=
      if b.tags.isSome then
        (tagList.map (fun ts => ["tag-".data ++ ts, "post-".data ++ slugOr])).flatten
      else []
    ⟨200,
      .done true (pathPaths ++ slugPaths ++ collPaths ++ ["/".data] ++ artPaths)
        (collTags ++ wpCacheTags ++ loopTags),
      pathPaths.map .path ++ slugPaths.map .path ++ collPaths.map .path ++
        [.path "/".data] ++ artPaths.map .path ++ wpCacheTags.map .tag ++
        loopTags.map .tag⟩

/-- C5: a GET or POST request whose secret (query parameter for GET, query
parameter or body field for POST) does not equal REVALIDATE_SECRET gets a
401 response with an error message and no path or tag is revalidated. -/
theorem c5_invalid_secret (env qs qp qa : Option Str) (b : PostBody)
    (h1 : secretMatches qs env = false) (h2 : secretMatches b.secret env = false) :
    revalidateGET env qs qp qa = ⟨401, .invalid "Invalid secret".data, []⟩ ∧
    revalidatePOST env qs b = ⟨401, .invalid "Invalid secret".data, []⟩ := by
  constructor
  · simp [revalidateGET, h1]
  · have htok : secretMatches (jsOr qs b.secret) env = false := by
      rw [jsOr]
      split
      · exact h1
      · exact h2
    simp [revalidatePOST, htok]

/-- Witness for C5 at a concrete secret mismatch. -/
theorem c5_invalid_secret_witness :
    revalidateGET (some "top".data) (some "wrong".data) none none =
      ⟨401, .invalid "Invalid secret".data, []⟩ ∧
    revalidatePOST (some "top".data) (some "wrong".data)
        { secret := some "nope".data } =
      ⟨401, .invalid "Invalid secret".data, []⟩ :=
  c5_invalid_secret (some "top".data) (some "wrong".data) none none
    { secret := some "nope".data } (by decide) (by decide)

/-! ### Claim C6: wpFetch of lib/wpclient.ts (and the variant of the second
source copy).  The single awaited fetch call is modelled by the event it
resolves to: an abort fired by the 30-second timer, a response, or another
network failure.  The first component of the result counts the fetch calls
the control flow issues. -/

/-- What the one fetch call of wpFetch resolves to. -/
inductive FetchEvent where
  | aborted
  | response (ok : Bool) (status : Nat) (statusText : Str) (contentType : Str)
      (bodyText : Str) (errorsText : Option Str) (payload : Option Str)
  | networkFailure (message : Str)
deriving DecidableEq, Repr

/-- Decimal rendering of a number interpolated into an error message. -/
def natStr (n : Nat) : Str := (toString n).data

/-- The fixed timeout in milliseconds passed to setTimeout by both wpFetch
versions. -/
def wpTimeoutMs : Nat := 30000

/-- The abort-error message thrown by wpFetch of lib/wpclient.ts. -/
def wpTimeoutMessage : Str :=
  "WordPress API timeout: Server did not respond within 30 seconds. The server may be down.".data

/-- The abort-error message thrown by the wpFetch variant. -/
def wpTimeoutMessageAlt : Str :=
  "Request timeout: WordPress API did not respond within 30 seconds".data

/-- wpFetch of lib/wpclient.ts: number of fetch calls issued, and the
returned data or thrown error. -/
def wpFetch (ev : FetchEvent) : Nat × Except Str Str :=
  (1,
   match ev with
   | .aborted => .error wpTimeoutMessage
   | .networkFailure msg =>
     if msg.isEmpty then .error ("WordPress API error: Unknown error".data)
     else .error msg
   | .response ok status statusText contentType bodyText errorsText payload =>
     if !ok then
       .error ("WordPress API error: ".data ++ natStr status ++ " ".data ++
         (if statusText.isEmpty then "Unknown error".data else statusText) ++
         ". The WordPress server may be down.".data)
     else if !(includesStr contentType "application/json".data) then
       .error ("Expected JSON but got ".data ++ contentType ++ ". Response: ".data ++
         bodyText.take 200)
     else
       match errorsText with
       | some es => .error ("WordPress GraphQL errors: ".data ++ es)
       | none =>
         match payload with
         | some d => .ok d
         | none =>
           .error "WordPress API returned no data. The server may be down or misconfigured.".data)

/-- The wpFetch variant of the second source copy: content type first, then
a combined status/errors check throwing the serialized errors or status,
and the data returned without a null check. -/
def wpFetchAlt (ev : FetchEvent) : Nat × Except Str (Option Str) :=
  (1,
   match ev with
   | .aborted => .error wpTimeoutMessageAlt
   | .networkFailure msg => .error msg
   | .response ok status _ contentType bodyText errorsText payload =>
     if !(includesStr contentType "application/json".data) then
       .error ("Expected JSON but got ".data ++ contentType ++ ". Response: ".data ++
         bodyText.take 200)
     else if !ok || errorsText.isSome then
       .error (errorsText.getD (natStr status))
     else .ok payload)

/-- C6: each wpFetch invocation issues at most one fetch call (no retry),
and when the 30000 millisecond timer aborts the request both versions throw
the timeout error instead of returning data. -/
theorem c6_single_shot (ev : FetchEvent) :
    (wpFetch ev).1 ≤ 1 ∧ (wpFetchAlt ev).1 ≤ 1 ∧
    (wpFetch .aborted).2 = .error wpTimeoutMessage ∧
    (wpFetchAlt .aborted).2 = .error wpTimeoutMessageAlt ∧
    wpTimeoutMs = 30000 :=
  ⟨Nat.le.refl, Nat.le.refl, rfl, rfl, rfl⟩

/-! ### Claim C7: the branding and footer-label wrappers of lib/branding.ts,
with each underlying wpFetch result supplied as an argument (a thrown fetch
error is an error value). -/

/-- The site logo shape produced by getSiteBranding. -/
structure LogoInfo where
  sourceUrl : Str
  altText : Str
deriving DecidableEq, Repr

/-- SiteBranding of lib/branding.ts. -/
structure SiteBranding where
  siteName : Str
  siteLogo : Option LogoInfo
deriving DecidableEq, Repr

/-- The sitelogo media node of a CMS branding post. -/
structure LogoNode where
  sourceUrl : Str
  altText : Option Str := none
deriving DecidableEq, Repr

/-- The homepage field group of a branding post; the optional chain
sitelogo-question-node is collapsed into one optional node. -/
structure Homepage where
  sitename : Option Str := none
  sitelogoNode : Option LogoNode := none
deriving DecidableEq, Repr

/-- One node of the sitelogos query result. -/
structure BrandingNode where
  title : Str
  homepage : Option Homepage := none
deriving DecidableEq, Repr

/-- JavaScript string or-else with a default: the left value when present
and non-empty, the default otherwise. -/
def orStr (a : Option Str) (b : Str) : Str :=
  match a with
  | some s => if s.isEmpty then b else s
  | none => b

/-- getSiteBranding of lib/branding.ts, over the result of its wpFetch
call. -/
def getSiteBranding (res : Except Str (List BrandingNode)) : SiteBranding :=
  match res with
  | .error _ => ⟨"AI Plaza".data, none⟩
  | .ok nodes =>
    let brandingPost :=
      (nodes.find? (fun p =>
        !(lowerStr p.title == "megaphone".data) && p.homepage.isSome)).orElse
        (fun _ => nodes.find? (fun p => p.homepage.isSome))
    match brandingPost with
    | some post =>
      match post.homepage with
      | some hp =>
        ⟨orStr hp.sitename (orStr (some post.title) "AI Plaza".data),
          match hp.sitelogoNode with
          | some n => some ⟨n.sourceUrl, orStr n.altText "Site logo".data⟩
          | none => none⟩
      | none => ⟨"AI Plaza".data, none⟩
    | none => ⟨"AI Plaza".data, none⟩

/-- One footer-setting taxonomy term. -/
structure FooterTerm where
  name : Str
  slug : Str
deriving DecidableEq, Repr

/-- FooterLabels of lib/branding.ts. -/
structure FooterLabels where
  collections : Str
  blogHighlights : Str
  topics : Str
deriving DecidableEq, Repr

/-- The three slugs the all-terms fallback query filters by. -/
def footerSlugs : List Str :=
  ["collection".data, "blog_highlights".data, "topics".data]

/-- getFooterLabels of lib/branding.ts, over the results of its first
(filtered) and second (all-terms fallback) wpFetch calls; a failed first
call leaves the term list empty, and a failed fallback is swallowed. -/
def getFooterLabels (r1 r2 : Except Str (List FooterTerm)) : FooterLabels :=
  let terms : List FooterTerm :=
    match r1 with
    | .error _ => []
    | .ok t1 =>
      if t1.isEmpty then
        match r2 with
        | .error _ => []
        | .ok allTerms => allTerms.filter (fun t => footerSlugs.contains t.slug)
      else t1
  let collectionTerm := terms.find? (fun t => t.slug == "collection".data)
  let blogHighlightsTerm := terms.find? (fun t => t.slug == "blog_highlights".data)
  let topicsTerm := terms.find? (fun t => t.slug == "topics".data)
  ⟨orStr (collectionTerm.map (fun t => t.name)) "Collections".data,
   orStr (blogHighlightsTerm.map (fun t => t.name)) "Blog Highlights".data,
   orStr (topicsTerm.map (fun t => t.name)) "Topics".data⟩

/-- C7: when every underlying wpFetch call throws, getSiteBranding returns
the AI Plaza default with no logo and getFooterLabels returns the default
labels Collections, Blog Highlights and Topics. -/
theorem c7_fallback_defaults (e e1 e2 : Str) :
    getSiteBranding (.error e) = ⟨"AI Plaza".data, none⟩ ∧
    getFooterLabels (.error e1) (.error e2) =
      ⟨"Collections".data, "Blog Highlights".data, "Topics".data⟩ :=
  ⟨rfl, rfl⟩

end AIGuide
